import Mathlib

/-!
Verification of the retrieval engine of the `ocr-embeds` repository:
the text chunker (`src/utils/text_processor.py`), the FAISS-backed
vector store (`src/core/vector_db.py`), and the document-level
aggregation step of the query pipeline (`main.py`, `search` command).

Python strings are modelled as `List Char`, Python floats as exact
rationals `ℚ` (FAISS L2 distances are order-compatible with this
model), Python dicts with string keys as insertion-ordered association
lists, and fallible Python operations as `Except`.
-/

/-- Python exceptions that the modelled code can raise. -/
inductive PyErr where
  | indexError
  | keyError
  | typeError
  | dimensionMismatch
  | readError
  | invalidArg
  deriving Repr, DecidableEq

/-- Values stored in metadata dictionaries (ints and strings suffice for
the records this program builds and JSON round-trips). -/
inductive PyVal where
  | int (n : Int)
  | str (s : List Char)
  deriving Repr, DecidableEq

/-- A Python dict with string keys, as an insertion-ordered association
list (Python 3.7+ dicts preserve insertion order). -/
abbrev PyDict := List (String × PyVal)

/-- `d[k] = v` in Python: overwrite the value of an existing key in
place, otherwise append the new pair at the end. -/
def dictSet (d : PyDict) (k : String) (v : PyVal) : PyDict :=
  if d.any (fun e => e.1 = k) then
    d.map (fun e => if e.1 = k then (k, v) else e)
  else
    d ++ [(k, v)]

/-- `d.get(k)`-style lookup: first entry with the key, if any. -/
def dictGetOpt (d : PyDict) (k : String) : Option PyVal :=
  (d.find? (fun e => e.1 = k)).map (fun e => e.2)

/-- `d[k]` in Python: raises `KeyError` when the key is absent. -/
def dictGet (d : PyDict) (k : String) : Except PyErr PyVal :=
  match dictGetOpt d k with
  | some v => .ok v
  | none => .error .keyError

/-- `l[i]` on a Python list: negative indices count from the end, and
an out-of-range index raises `IndexError`. -/
def pyGetList {α : Type} (l : List α) (i : Int) : Except PyErr α :=
  if i < 0 then
    let j : Int := (l.length : Int) + i
    if j < 0 then .error .indexError
    else
      match l.get? j.toNat with
      | some a => .ok a
      | none => .error .indexError
  else
    match l.get? i.toNat with
    | some a => .ok a
    | none => .error .indexError

/-! ## Chunker (`src/utils/text_processor.py`, `chunk_text`) -/

/-- Whitespace as recognised by Python's `str.strip` (ASCII part; the
texts in this development contain no exotic whitespace). -/
def pyIsSpace (c : Char) : Bool :=
  c == ' ' || c == '\t' || c == '\n' || c == '\x0d' || c == '\x0b' || c == '\x0c'

/-- Python `str.strip()`: drop leading and trailing whitespace. -/
def pyStrip (s : List Char) : List Char :=
  ((s.dropWhile pyIsSpace).reverse.dropWhile pyIsSpace).reverse

/-- Normalise a (possibly negative) Python slice index against a string
of length `len`. -/
def pyNormIdx (len : Nat) (i : Int) : Nat :=
  if i < 0 then ((len : Int) + i).toNat else min i.toNat len

/-- Python `text[a:b]` on a string. -/
def pySliceStr (text : List Char) (a b : Int) : List Char :=
  (text.take (pyNormIdx text.length b)).drop (pyNormIdx text.length a)

/-- Index (within the list) of the last space character, if any. -/
def lastSpacePos (l : List Char) : Option Nat :=
  (l.foldl
    (fun (acc : Option Nat × Nat) c =>
      (if c == ' ' then some acc.2 else acc.1, acc.2 + 1))
    (none, 0)).1

/-- Python `text.rfind(' ', a, b)`: highest index in `[a, b)` holding a
space, or `-1` when there is none. -/
def rfindSpace (text : List Char) (a b : Int) : Int :=
  let na := pyNormIdx text.length a
  let nb := pyNormIdx text.length b
  match lastSpacePos ((text.take nb).drop na) with
  | some j => (na + j : Nat)
  | none => -1

/-- The `while start < text_len` loop of `chunk_text`, with explicit
fuel: `none` means the fuel ran out before the loop finished, so the
concrete Python loop has run for at least `fuel` iterations.  Each
iteration mirrors the source: propose `end = start + chunk_size`, move
`end` back to the last space strictly inside the text, emit the
stripped slice when nonempty, then `start = end - overlap` with the
source's (ineffective for positive overlap) `start >= end` guard. -/
def chunkLoop (text : List Char) (csize ov : Int) : Nat → Int → Option (List (List Char))
  | 0, _ => none
  | fuel + 1, start =>
    if start < (text.length : Int) then
      let e0 := start + csize
      let e1 :=
        if e0 < (text.length : Int) then
          let ls := rfindSpace text start e0
          if ls ≠ -1 then ls else e0
        else e0
      let c := pyStrip (pySliceStr text start e1)
      let s1 := e1 - ov
      let s2 := if s1 ≥ e1 then e1 else s1
      (chunkLoop text csize ov fuel s2).map
        (fun rest => if c.isEmpty then rest else c :: rest)
    else
      some []

/-- `chunk_text(text, chunk_size, overlap)` from
`src/utils/text_processor.py`, with fuel for the loop.  An empty text
returns `[]` immediately. -/
def chunk_text (text : List Char) (csize ov : Int) (fuel : Nat) : Option (List (List Char)) :=
  if text.isEmpty then some [] else chunkLoop text csize ov fuel 0

/-- `chunk_text` terminates on an input when some amount of fuel
suffices for its loop. -/
def ChunkTextTerminates (text : List Char) (csize ov : Int) : Prop :=
  ∃ fuel, (chunk_text text csize ov fuel).isSome

/-! ## Stable sorting (model of Python `sorted` and of FAISS ordering)

`List.mergeSort` does not reduce in the kernel, so Python's stable sort
is modelled by a stable insertion sort: `x` is inserted before the
first element it is `le`-related to, which for a total preorder agrees
extensionally with any stable sort. -/

/-- Insert `x` before the first element `y` with `le x y`. -/
def insertStable {α : Type} (le : α → α → Bool) (x : α) : List α → List α
  | [] => [x]
  | y :: ys => if le x y then x :: y :: ys else y :: insertStable le x ys

/-- Stable insertion sort: equal-key elements keep their input order. -/
def sortStable {α : Type} (le : α → α → Bool) : List α → List α
  | [] => []
  | x :: xs => insertStable le x (sortStable le xs)

/-! ## FAISS `IndexFlatL2` (external library, modelled from its
documented semantics: exact k-nearest-neighbour search under squared
Euclidean distance, results ordered by increasing distance with ties in
insertion order, padded with index `-1` when fewer than `k` vectors are
stored). -/

/-- A FAISS flat index: its dimension `d` and the stored vectors in
insertion order. -/
structure FaissIndex where
  d : Nat
  vecs : List (List ℚ)
  deriving Repr, DecidableEq

/-- Squared Euclidean (L2) distance, the score `IndexFlatL2` reports. -/
def sqDist (a b : List ℚ) : ℚ :=
  ((a.zip b).map (fun p => (p.1 - p.2) ^ 2)).sum

/-- Sentinel distance used to pad FAISS results past the stored count
(the concrete float value is irrelevant: padded entries carry index
`-1` and are filtered by every caller in this repository). -/
def faissPadDist : ℚ := (3402823 : ℚ) * 10 ^ 32

/-- `index.search(query, k)` on `IndexFlatL2`: one `(distance, id)`
pair per result slot, exactly `k` slots, the stored vectors ordered by
increasing squared L2 distance (ties by lower id, which stability of
the sort gives for free), padded with `(faissPadDist, -1)` slots. -/
def faissSearch (vecs : List (List ℚ)) (q : List ℚ) (k : Nat) : List (ℚ × Int) :=
  let scored := vecs.enum.map (fun p => (sqDist q p.2, (p.1 : Int)))
  let sorted := sortStable (fun a b => decide (a.1 ≤ b.1)) scored
  let top := sorted.take k
  top ++ List.replicate (k - top.length) (faissPadDist, -1)

/-! ## Vector store (`src/core/vector_db.py`, class `VectorStore`) -/

/-- In-memory state of `VectorStore`: configured dimension, the FAISS
index (`none` models `self.index is None`), and the parallel metadata
list. -/
structure VectorStore where
  dimension : Nat
  index : Option FaissIndex
  metadata : List PyDict
  deriving Repr, DecidableEq

/-- Number of stored vectors (`self.index.ntotal`, 0 when no index). -/
def VectorStore.ntotal (s : VectorStore) : Nat :=
  match s.index with
  | none => 0
  | some ix => ix.vecs.length

/-- `create_index`: fresh empty FAISS index, metadata reset. -/
def create_index (s : VectorStore) : VectorStore :=
  { s with index := some ⟨s.dimension, []⟩, metadata := [] }

/-- The store `__init__` produces when no artifacts exist on disk. -/
def emptyStore (dim : Nat) : VectorStore :=
  ⟨dim, some ⟨dim, []⟩, []⟩

/-- The body of `add_item` once the index object exists: FAISS raises
when the vector's length differs from the index dimension `ix.d`;
otherwise the vector is appended, `meta["id"] = ntotal - 1` is set in
the caller's dict, and that same dict is appended to the metadata
list.  Returns the new store state together with the (mutated,
aliased) caller dict. -/
def addCore (dim : Nat) (ix : FaissIndex) (md : List PyDict) (v : List ℚ) (meta : PyDict) :
    Except PyErr (VectorStore × PyDict) :=
  if v.length = ix.d then
    let meta' := dictSet meta "id" (.int (ix.vecs.length : Int))
    .ok (⟨dim, some ⟨ix.d, ix.vecs ++ [v]⟩, md ++ [meta']⟩, meta')
  else
    .error .dimensionMismatch

/-- `add_item(vector, meta)`: `create_index` first when
`self.index is None` (which also resets the metadata list), then the
append-and-tag sequence of `addCore`. -/
def add_item (s : VectorStore) (v : List ℚ) (meta : PyDict) :
    Except PyErr (VectorStore × PyDict) :=
  match s.index with
  | none => addCore s.dimension ⟨s.dimension, []⟩ [] v meta
  | some ix => addCore s.dimension ix s.metadata v meta

/-- A passage-level search hit as `VectorStore.search` builds it:
`{"filename": ..., "preview": text[:200] + "...", "score": D}`. -/
structure SearchHit where
  filename : PyVal
  preview : List Char
  score : ℚ
  deriving Repr, DecidableEq

/-- The result loop of `search`: for each `(distance, idx)` slot, keep
it only when `idx != -1 and idx < len(self.metadata)`; inside the
guard, `self.metadata[idx]`, `item["filename"]`, `item["text"]` and the
`[:200]` slice are modelled with their fallible Python semantics. -/
def buildHits (md : List PyDict) : List (ℚ × Int) → Except PyErr (List SearchHit)
  | [] => .ok []
  | (dist, idx) :: rest =>
    if idx ≠ -1 ∧ idx < (md.length : Int) then
      match pyGetList md idx with
      | .error e => .error e
      | .ok item =>
        match dictGet item "filename" with
        | .error e => .error e
        | .ok fn =>
          match dictGet item "text" with
          | .error e => .error e
          | .ok (.int _) => .error .typeError
          | .ok (.str txt) =>
            (buildHits md rest).map
              (fun hits => ⟨fn, txt.take 200 ++ ['.', '.', '.'], dist⟩ :: hits)
    else
      buildHits md rest

/-- `VectorStore.search(query_vector, top_k)`: empty index short-circuits
to `[]`; otherwise FAISS checks the query dimension and `k > 0`, then
the hit list is assembled from the raw `(D, I)` arrays. -/
def VectorStore.search (s : VectorStore) (q : List ℚ) (k : Nat) :
    Except PyErr (List SearchHit) :=
  match s.index with
  | none => .ok []
  | some ix =>
    if ix.vecs.length = 0 then .ok []
    else if q.length ≠ ix.d then .error .dimensionMismatch
    else if k = 0 then .error .invalidArg
    else buildHits s.metadata (faissSearch ix.vecs q k)

/-! ## Persistence (`save_index`, `load_index`) -/

/-- A file slot on disk: absent, present but unreadable (deserialising
raises), or present with parsed content. -/
inductive DiskFile (α : Type) where
  | absent
  | corrupt
  | good (val : α)
  deriving Repr, DecidableEq

/-- `os.path.exists` for a modelled file. -/
def DiskFile.present {α : Type} : DiskFile α → Bool
  | .absent => false
  | _ => true

/-- Reading a file: `corrupt` raises, `absent` raises (never reached in
the modelled code, which checks existence first). -/
def DiskFile.read {α : Type} : DiskFile α → Except PyErr α
  | .good a => .ok a
  | _ => .error .readError

/-- The two persisted artifacts at the store's configured paths. -/
structure DiskState where
  indexFile : DiskFile FaissIndex
  metaFile : DiskFile (List PyDict)
  deriving Repr, DecidableEq

/-- `save_index`: when the index object exists (it always does after
`__init__`), write the FAISS index and dump the metadata JSON; the
artifact pair replaces whatever was at the two paths. -/
def save_index (s : VectorStore) (disk : DiskState) : DiskState :=
  match s.index with
  | none => disk
  | some ix => ⟨.good ix, .good s.metadata⟩

/-- `load_index` as run by `__init__(index_path, metadata_path,
dimension)`: when both artifacts exist, read them (propagating read
errors to the caller — there is no `try`/`except` here and no count
consistency check); otherwise `create_index`. -/
def load_index (dim : Nat) (disk : DiskState) : Except PyErr VectorStore :=
  if disk.indexFile.present ∧ disk.metaFile.present then
    match disk.indexFile.read with
    | .error e => .error e
    | .ok ix =>
      match disk.metaFile.read with
      | .error e => .error e
      | .ok md => .ok ⟨dim, some ix, md⟩
  else
    .ok (emptyStore dim)

/-- Run a batch of `add_item` calls in sequence (the indexing pipeline's
inner loop), stopping at the first raised exception. -/
def addAll (s : VectorStore) : List (List ℚ × PyDict) → Except PyErr VectorStore
  | [] => .ok s
  | (v, m) :: rest =>
    match add_item s v m with
    | .ok (s', _) => addAll s' rest
    | .error e => .error e

/-- Executable check that entry `i` of the metadata list carries
`"id" = base + i`, for each position `i`. -/
def idsOkFrom (base : Nat) : List PyDict → Bool
  | [] => true
  | d :: rest =>
    (dictGetOpt d "id" == some (.int (base : Int))) && idsOkFrom (base + 1) rest

/-- The `metadata[i].id == i` join invariant, as an executable check. -/
def idsOk (md : List PyDict) : Bool := idsOkFrom 0 md

/-! ## Query-pipeline aggregation (`main.py`, `search` command,
steps 4–6: grouping, sorting, slicing) -/

/-- One entry of `unique_docs`: the kept score and preview for one
filename (the `chunk_match` field of the source is written but never
read afterwards, so it is not modelled). -/
structure DocEntry where
  filename : PyVal
  score : ℚ
  preview : List Char
  deriving Repr, DecidableEq

/-- One step of the grouping loop: first sight of a filename inserts
it; a later hit replaces the entry only when its score is strictly
GREATER (the source comments say "HIGHER is Better", assuming
cosine/inner-product semantics). -/
def groupStep (acc : List DocEntry) (h : SearchHit) : List DocEntry :=
  if acc.any (fun e => e.filename = h.filename) then
    acc.map (fun e =>
      if e.filename = h.filename ∧ h.score > e.score then
        ⟨e.filename, h.score, h.preview⟩
      else e)
  else
    acc ++ [⟨h.filename, h.score, h.preview⟩]

/-- Steps 4–6 of the `search` command: group hits by filename keeping
the highest score per file, sort by score DESCENDING (Python `sorted`
with `reverse=True`, stable), and slice to the user's `k`. -/
def aggregateDocs (hits : List SearchHit) (k : Nat) : List DocEntry :=
  let groups := hits.foldl groupStep []
  let ranked := sortStable (fun a b => decide (b.score ≤ a.score)) groups
  ranked.take k

/-! ## Concrete fixtures used by the theorems -/

/-- A text with one space after a 5-character word, followed by a long
unbroken word: `"aaaaa aaaaaaaaaa"` (length 16). -/
def chunkDivText : List Char := List.replicate 5 'a' ++ [' '] ++ List.replicate 10 'a'

/-- Metadata record of a well-formed passage (fixture). -/
def metaRecA : PyDict := [("filename", .str ['f']), ("text", .str ['t', 'x'])]

/-- A store whose FAISS index holds two 1-dimensional vectors but whose
metadata list has a single entry: the mismatched state `load_index`
accepts without complaint. -/
def mismStore : VectorStore := ⟨1, some ⟨1, [[(0 : ℚ)], [(10 : ℚ)]]⟩, [metaRecA]⟩

/-- On-disk artifact pair with disagreeing counts: index of two
vectors, metadata of one entry. -/
def mismDisk : DiskState := ⟨.good ⟨1, [[(0 : ℚ)], [(10 : ℚ)]]⟩, .good [metaRecA]⟩

/-- Passage-level hits for document-aggregation scenarios: two hits on
file `"a"` with L2 scores 9 and 1 and one hit on `"b"` with score 5
(under L2, the score-1 hit is the best of the three). -/
def aggHitsInput : List SearchHit :=
  [⟨.str ['a'], ['p', '1'], 9⟩,
   ⟨.str ['a'], ['p', '2'], 1⟩,
   ⟨.str ['b'], ['p', '3'], 5⟩]

/-- A store of two 0-dimensional vectors alongside a single metadata
record: vector count 2, metadata count 1 (fixture for the
count-mismatch behaviour of `search`; zero dimension keeps every
distance at the literal 0). -/
def zmisStore : VectorStore := ⟨0, some ⟨0, [[], []]⟩, [metaRecA]⟩

/-- Length of a search result, counting a raised exception as 0. -/
def resultLen : Except PyErr (List SearchHit) → Nat
  | .ok l => l.length
  | .error _ => 0

/-- A metadata entry the `search` result loop can consume without
raising: it has a `"filename"` key and a string-valued `"text"` key
(every record built by `add_item` during indexing has both). -/
def wfEntry (d : PyDict) : Bool :=
  (dictGetOpt d "filename").isSome &&
  (match dictGetOpt d "text" with
   | some (.str _) => true
   | _ => false)

/-- All metadata entries are consumable by the result loop. -/
def wfMeta (md : List PyDict) : Bool := md.all wfEntry

/-- Second well-formed metadata record (fixture). -/
def metaRecB : PyDict := [("filename", .str ['g']), ("text", .str ['u'])]

/-- A consistent store with two 1-dimensional vectors and two parallel
metadata records (fixture). -/
def wfStore : VectorStore := ⟨1, some ⟨1, [[(0 : ℚ)], [(10 : ℚ)]]⟩, [metaRecA, metaRecB]⟩

/-! ## Theorems -/

/-- Helper: one iteration of the chunk loop on `chunkDivText` starting
at cursor 3 computes `end = 8`, moves it back to the space at index 5,
emits `"aa"`, and returns the cursor to 3. -/
theorem chunkLoop_div_step (n : Nat) :
    chunkLoop chunkDivText 5 2 (n + 1) 3 =
      (chunkLoop chunkDivText 5 2 n 3).map (fun rest => ['a', 'a'] :: rest) := rfl

/-- Helper: the chunk loop on `chunkDivText` is stuck at cursor 3. -/
theorem chunkLoop_div_stuck (fuel : Nat) :
    chunkLoop chunkDivText 5 2 fuel 3 = none := by
  induction fuel with
  | zero => rfl
  | succ n ih => rw [chunkLoop_div_step, ih]; rfl

/-- C2: refuted as stated — `chunk_text` does not terminate on every
input with `overlap < chunk_size`.  On `"aaaaa aaaaaaaaaa"` with
`chunk_size = 5`, `overlap = 2`, the loop reaches `start = 3`, the
backward space search pulls `end` back to 5 on every iteration, and
`start = end - overlap = 3` never advances (the `start >= end` guard
compares against the new `end` and never fires for positive overlap):
no amount of fuel completes the loop. -/
theorem chunk_text_diverges_on_long_word (fuel : Nat) :
    chunk_text chunkDivText 5 2 fuel = none := by
  cases fuel with
  | zero => rfl
  | succ n =>
    have step0 : chunk_text chunkDivText 5 2 (n + 1) =
        (chunkLoop chunkDivText 5 2 n 3).map
          (fun rest => List.replicate 5 'a' :: rest) := rfl
    rw [step0, chunkLoop_div_stuck]; rfl

/-- C3 counterexample: the nonempty text `"aaaaa"` (length 5) with
`chunk_size = 7 > 5` and `overlap = 3 < 7` yields TWO chunks,
`["aaaaa", "a"]`, not one: after emitting the whole text the cursor
advances only to `chunk_size - overlap = 4 < 5`, so a second
iteration emits the tail `"a"`. -/
theorem chunk_text_short_text_two_chunks :
    chunk_text (List.replicate 5 'a') 7 3 3 = some [List.replicate 5 'a', ['a']] := rfl

/-- Helper: a `[0:b]` slice with `b` at least the length is the whole
string. -/
theorem pySliceStr_zero_ge (text : List Char) (b : Int)
    (hb : (text.length : Int) ≤ b) : pySliceStr text 0 b = text := by
  unfold pySliceStr pyNormIdx
  have h0 : ¬ ((0 : Int) < 0) := by omega
  have hb0 : ¬ (b < 0) := by omega
  have hbn : text.length ≤ b.toNat := by omega
  rw [if_neg h0, if_neg hb0]
  simp [Nat.min_eq_right hbn, List.take_of_length_le (Nat.le_refl _)]

/-- C3 amended: a text whose stripped form is nonempty and whose length
is at most `chunk_size - overlap` (so the advanced cursor clears the
end of the text) yields exactly one chunk, the whole text stripped of
leading and trailing whitespace. -/
theorem chunk_text_single_chunk (text : List Char) (csize ov : Int)
    (hov : 0 ≤ ov) (hlen : (text.length : Int) ≤ csize - ov)
    (hne : pyStrip text ≠ []) :
    chunk_text text csize ov 2 = some [pyStrip text] := by
  have htne : text ≠ [] := by
    intro h; exact hne (by rw [h]; rfl)
  have hpos : 0 < text.length := List.length_pos.mpr htne
  unfold chunk_text
  rw [if_neg (by simp [List.isEmpty_iff, htne])]
  unfold chunkLoop
  rw [if_pos (by exact_mod_cast hpos)]
  dsimp only
  have hnoadj : ¬ ((0 : Int) + csize < (text.length : Int)) := by omega
  rw [if_neg hnoadj]
  have hslice : pySliceStr text 0 (0 + csize) = text :=
    pySliceStr_zero_ge text _ (by omega)
  rw [hslice]
  have hexit : ∀ s2 : Int, ¬ (s2 < (text.length : Int)) →
      chunkLoop text csize ov 1 s2 = some [] := by
    intro s2 hs2
    unfold chunkLoop
    rw [if_neg hs2]
  by_cases hc : 0 + csize - ov ≥ 0 + csize
  · rw [if_pos hc, hexit _ (by omega)]
    simp [List.isEmpty_iff, hne]
  · rw [if_neg hc, hexit _ (by omega)]
    simp [List.isEmpty_iff, hne]

/-- Witness for `chunk_text_single_chunk` at `"ab"`, `chunk_size = 7`,
`overlap = 3`. -/
theorem chunk_text_single_chunk_witness :
    chunk_text ['a', 'b'] 7 3 2 = some [pyStrip ['a', 'b']] :=
  chunk_text_single_chunk ['a', 'b'] 7 3 (by decide) (by decide) (by decide)

set_option maxRecDepth 40000 in
/-- C8: `chunk_text("A"*1200, chunk_size=500, overlap=100)` yields
exactly 3 chunks (of lengths 500, 500 and 400: the text has no spaces,
so the cursor advances by 400 per iteration). -/
theorem chunk_text_1200_three_chunks :
    (chunk_text (List.replicate 1200 'A') 500 100 4).map List.length = some 3 := rfl

/-- Helper: setting a key makes it readable back. -/
theorem dictGetOpt_dictSet_self (d : PyDict) (k : String) (v : PyVal) :
    dictGetOpt (dictSet d k v) k = some v := by
  induction d with
  | nil => simp [dictSet, dictGetOpt]
  | cons e d ih =>
    by_cases he : e.1 = k
    · simp [dictSet, dictGetOpt, he]
    · by_cases hd : d.any (fun x => x.1 = k)
      · simp [dictSet, dictGetOpt, he, hd] at ih ⊢
        exact ih
      · simp [dictSet, dictGetOpt, he, hd] at ih ⊢
        exact ih

/-- Helper: rewriting the value of key `k` preserves all non-`k`
entries. -/
theorem filter_ne_map_set (d : PyDict) (k : String) (v : PyVal) :
    (d.map (fun e => if e.1 = k then (k, v) else e)).filter (fun e => e.1 ≠ k)
      = d.filter (fun e => e.1 ≠ k) := by
  induction d with
  | nil => rfl
  | cons e d ih =>
    by_cases he : e.1 = k
    · simp only [List.map_cons, if_pos he]
      rw [List.filter_cons_of_neg (by simp), List.filter_cons_of_neg (by simp [he])]
      exact ih
    · simp only [List.map_cons, if_neg he]
      rw [List.filter_cons_of_pos (by simp [he]), List.filter_cons_of_pos (by simp [he])]
      rw [ih]

/-- Helper: setting a key leaves every other entry untouched. -/
theorem dictSet_filter_ne (d : PyDict) (k : String) (v : PyVal) :
    (dictSet d k v).filter (fun e => e.1 ≠ k) = d.filter (fun e => e.1 ≠ k) := by
  unfold dictSet
  by_cases hd : d.any (fun x => x.1 = k)
  · rw [if_pos hd]
    exact filter_ne_map_set d k v
  · rw [if_neg hd]
    simp

/-- Helper: full description of a successful `addCore`. -/
theorem addCore_ok (dim : Nat) (ix : FaissIndex) (md : List PyDict)
    (v : List ℚ) (meta : PyDict) (s' : VectorStore) (meta' : PyDict)
    (h : addCore dim ix md v meta = .ok (s', meta')) :
    v.length = ix.d ∧
    meta' = dictSet meta "id" (.int (ix.vecs.length : Int)) ∧
    s' = ⟨dim, some ⟨ix.d, ix.vecs ++ [v]⟩, md ++ [meta']⟩ := by
  unfold addCore at h
  by_cases hv : v.length = ix.d
  · rw [if_pos hv] at h
    injection h with h
    injection h with h1 h2
    subst h2
    exact ⟨hv, rfl, h1.symm⟩
  · rw [if_neg hv] at h
    exact absurd h (by simp)

/-- C10: a successful `add_item(vector, meta)` mutates the
caller-supplied dict in place: afterwards its `"id"` key holds the
appended vector's position (`ntotal - 1`), overwriting any
pre-existing `"id"` value; every other entry is unchanged; and the
stored metadata tail is that very dict (the store aliases the caller's
dict object). -/
theorem add_item_meta_effect (s : VectorStore) (v : List ℚ) (meta : PyDict)
    (s' : VectorStore) (meta' : PyDict)
    (h : add_item s v meta = .ok (s', meta')) :
    dictGetOpt meta' "id" = some (.int ((s'.ntotal : Int) - 1)) ∧
    meta'.filter (fun e => e.1 ≠ "id") = meta.filter (fun e => e.1 ≠ "id") ∧
    s'.metadata.getLast? = some meta' := by
  unfold add_item at h
  cases hix : s.index with
  | none =>
    rw [hix] at h
    obtain ⟨hv, hm, hs⟩ := addCore_ok _ _ _ _ _ _ _ h
    subst hm
    subst hs
    refine ⟨?_, dictSet_filter_ne meta "id" _, by simp⟩
    rw [dictGetOpt_dictSet_self]
    simp [VectorStore.ntotal]
  | some ix =>
    rw [hix] at h
    obtain ⟨hv, hm, hs⟩ := addCore_ok _ _ _ _ _ _ _ h
    subst hm
    subst hs
    refine ⟨?_, dictSet_filter_ne meta "id" _, by simp⟩
    rw [dictGetOpt_dictSet_self]
    simp [VectorStore.ntotal]

/-- Witness for `add_item_meta_effect`: adding `[5]` with metadata
`{"id": 99, "filename": "x"}` to a fresh 1-dimensional store assigns
`id = 0`, keeps `"filename"`, and stores the same dict. -/
theorem add_item_meta_effect_witness :
    dictGetOpt [("id", PyVal.int 0), ("filename", PyVal.str ['x'])] "id"
        = some (.int (((VectorStore.mk 1 (some ⟨1, [[(5 : ℚ)]]⟩)
            [[("id", PyVal.int 0), ("filename", PyVal.str ['x'])]]).ntotal : Int) - 1)) ∧
    ([("id", PyVal.int 0), ("filename", PyVal.str ['x'])] : PyDict).filter
        (fun e => e.1 ≠ "id")
      = ([("id", PyVal.int 99), ("filename", PyVal.str ['x'])] : PyDict).filter
        (fun e => e.1 ≠ "id") ∧
    (VectorStore.mk 1 (some ⟨1, [[(5 : ℚ)]]⟩)
        [[("id", PyVal.int 0), ("filename", PyVal.str ['x'])]]).metadata.getLast?
      = some [("id", PyVal.int 0), ("filename", PyVal.str ['x'])] :=
  add_item_meta_effect (emptyStore 1) [(5 : ℚ)]
    [("id", PyVal.int 99), ("filename", PyVal.str ['x'])]
    ⟨1, some ⟨1, [[(5 : ℚ)]]⟩, [[("id", PyVal.int 0), ("filename", PyVal.str ['x'])]]⟩
    [("id", PyVal.int 0), ("filename", PyVal.str ['x'])]
    (by rfl)

/-- C6: saving a store and constructing a fresh one at the same two
paths reproduces the index vectors and the metadata exactly, hence an
identical vector count and identical search results for any fixed
query (the model computes distances exactly, so "within floating-point
tolerance" is satisfied with equality). -/
theorem save_load_roundtrip (s : VectorStore) (ix : FaissIndex) (disk : DiskState)
    (dim' : Nat) (q : List ℚ) (k : Nat) (hix : s.index = some ix) :
    load_index dim' (save_index s disk) = .ok ⟨dim', some ix, s.metadata⟩ ∧
    (VectorStore.mk dim' (some ix) s.metadata).ntotal = s.ntotal ∧
    (VectorStore.mk dim' (some ix) s.metadata).search q k = s.search q k := by
  refine ⟨?_, ?_, ?_⟩
  · simp [save_index, hix, load_index, DiskFile.present, DiskFile.read]
  · simp [VectorStore.ntotal, hix]
  · simp [VectorStore.search, hix]

/-- Witness for `save_load_roundtrip`: the two-vector store `wfStore`,
an unrelated previous disk state, target dimension 1, query `[7]`,
`top_k = 1`. -/
theorem save_load_roundtrip_witness :
    load_index 1 (save_index wfStore ⟨.absent, .corrupt⟩)
        = .ok ⟨1, some ⟨1, [[(0 : ℚ)], [(10 : ℚ)]]⟩, wfStore.metadata⟩ ∧
    (VectorStore.mk 1 (some ⟨1, [[(0 : ℚ)], [(10 : ℚ)]]⟩) wfStore.metadata).ntotal
        = wfStore.ntotal ∧
    (VectorStore.mk 1 (some ⟨1, [[(0 : ℚ)], [(10 : ℚ)]]⟩) wfStore.metadata).search
        [(7 : ℚ)] 1 = wfStore.search [(7 : ℚ)] 1 :=
  save_load_roundtrip wfStore ⟨1, [[(0 : ℚ)], [(10 : ℚ)]]⟩ ⟨.absent, .corrupt⟩ 1
    [(7 : ℚ)] 1 rfl

/-- C5 counterexample: with a readable index artifact holding two
vectors next to a readable metadata artifact holding one record — a
count mismatch — `load_index` succeeds and hands back the mismatched
store: no count-consistency check exists, so the claim's "loading
fails for that store instance" is false at this input. -/
theorem load_index_accepts_count_mismatch :
    load_index 1 mismDisk = .ok mismStore ∧
    mismStore.ntotal ≠ mismStore.metadata.length := by
  refine ⟨rfl, by decide⟩

/-- C5 amended: if both artifacts are present but either is unreadable,
construction raises and the error reaches the caller (the store is not
silently initialized); a readable pair with mismatched counts, however,
is loaded without complaint (see the counterexample). -/
theorem load_index_unreadable_raises (dim : Nat) (disk : DiskState)
    (hip : disk.indexFile.present = true) (hmp : disk.metaFile.present = true)
    (hbad : disk.indexFile = .corrupt ∨ disk.metaFile = .corrupt) :
    load_index dim disk = .error .readError := by
  obtain ⟨fi, fm⟩ := disk
  unfold load_index
  rw [if_pos ⟨hip, hmp⟩]
  rcases hbad with hb | hb
  · cases hb
    rfl
  · cases hb
    cases fi with
    | absent => simp [DiskFile.present] at hip
    | corrupt => rfl
    | good a => rfl

/-- Witness for `load_index_unreadable_raises`: a corrupt index
artifact beside a readable metadata artifact. -/
theorem load_index_unreadable_raises_witness :
    load_index 3 ⟨.corrupt, .good []⟩ = .error .readError :=
  load_index_unreadable_raises 3 ⟨.corrupt, .good []⟩ rfl rfl (Or.inl rfl)

/-- C1: refuted as stated — the aggregation step of the `search`
command keeps, per file, the hit with the HIGHEST score and sorts the
groups by score descending, although the store's metric is L2 where
lower is better: on hits `a:9/10, a:1/10, b:1/2` with
`top_k_documents = 2` on hits `a:9, a:1, b:5` it returns
`[a:9, b:5]`, not the `[a:1, b:5]` the claim's "better direction =
lowest L2" requires (the code's own comment "Lower is better for L2
Distance" contradicts its "HIGHER is Better" update rule). -/
theorem aggregateDocs_keeps_higher_score :
    aggregateDocs aggHitsInput 2 =
      [⟨.str ['a'], 9, ['p', '1']⟩, ⟨.str ['b'], 5, ['p', '3']⟩] ∧
    aggregateDocs aggHitsInput 2 ≠
      [⟨.str ['a'], 1, ['p', '2']⟩, ⟨.str ['b'], 5, ['p', '3']⟩] := by
  refine ⟨by decide, by decide⟩

/-- Helper: stable insertion permutes. -/
theorem insertStable_perm {α : Type} (le : α → α → Bool) (x : α) (l : List α) :
    (insertStable le x l).Perm (x :: l) := by
  induction l with
  | nil => exact List.Perm.refl _
  | cons y ys ih =>
    unfold insertStable
    by_cases h : le x y
    · rw [if_pos h]
    · rw [if_neg h]
      exact (ih.cons y).trans (List.Perm.swap x y ys)

/-- Helper: the stable sort permutes its input. -/
theorem sortStable_perm {α : Type} (le : α → α → Bool) (l : List α) :
    (sortStable le l).Perm l := by
  induction l with
  | nil => exact List.Perm.refl _
  | cons x xs ih => exact (insertStable_perm le x (sortStable le xs)).trans (ih.cons x)

/-- Helper: FAISS always returns exactly `k` result slots. -/
theorem faissSearch_length (vecs : List (List ℚ)) (q : List ℚ) (k : Nat) :
    (faissSearch vecs q k).length = k := by
  unfold faissSearch
  dsimp only
  rw [List.length_append, List.length_replicate]
  have h : (List.take k (sortStable (fun (a b : ℚ × Int) => decide (a.1 ≤ b.1))
      (vecs.enum.map (fun p => (sqDist q p.2, (p.1 : Int)))))).length ≤ k := by
    rw [List.length_take]
    exact Nat.min_le_left _ _
  omega

/-- Helper: every index FAISS returns is a stored position or the `-1`
sentinel. -/
theorem faissSearch_idx (vecs : List (List ℚ)) (q : List ℚ) (k : Nat) :
    ∀ p ∈ faissSearch vecs q k,
      (0 ≤ p.2 ∧ p.2 < (vecs.length : Int)) ∨ p.2 = -1 := by
  intro p hp
  unfold faissSearch at hp
  dsimp only at hp
  rw [List.mem_append] at hp
  rcases hp with hp | hp
  · left
    have hp1 : p ∈ sortStable (fun a b => decide (a.1 ≤ b.1))
        (vecs.enum.map (fun pr => (sqDist q pr.2, (pr.1 : Int)))) :=
      List.mem_of_mem_take hp
    have hp2 : p ∈ vecs.enum.map (fun pr => (sqDist q pr.2, (pr.1 : Int))) :=
      (sortStable_perm _ _).mem_iff.mp hp1
    rw [List.mem_map] at hp2
    obtain ⟨⟨i, v⟩, hmem, rfl⟩ := hp2
    have hget := List.mem_enum_iff_get?.mp hmem
    have hlt : i < vecs.length := (List.get?_eq_some.mp hget).1
    constructor
    · show (0 : Int) ≤ (i : Int)
      exact Int.ofNat_nonneg i
    · show (i : Int) < (vecs.length : Int)
      exact_mod_cast hlt
  · right
    have := List.eq_of_mem_replicate hp
    rw [this]

/-- Helper: the guarded metadata access in the result loop succeeds for
every in-range index. -/
theorem pyGetList_in_range {α : Type} (l : List α) (idx : Int)
    (h0 : 0 ≤ idx) (hlt : idx < (l.length : Int)) :
    ∃ a, pyGetList l idx = .ok a ∧ l.get? idx.toNat = some a := by
  unfold pyGetList
  rw [if_neg (by omega)]
  cases hsome : l.get? idx.toNat with
  | none =>
    have := List.get?_eq_none.mp hsome
    omega
  | some a => exact ⟨a, rfl, rfl⟩

/-- Helper: the result loop never raises `IndexError` when fed FAISS
indices (in-range or `-1`): the `idx != -1 and idx < len(metadata)`
guard screens every list access. -/
theorem buildHits_no_idx_error (md : List PyDict) (res : List (ℚ × Int))
    (hres : ∀ p ∈ res, 0 ≤ p.2 ∨ p.2 = -1) :
    buildHits md res ≠ .error .indexError := by
  induction res with
  | nil => simp [buildHits]
  | cons p rest ih =>
    obtain ⟨dist, idx⟩ := p
    have hrest : ∀ p ∈ rest, 0 ≤ p.2 ∨ p.2 = -1 :=
      fun p hp => hres p (List.mem_cons_of_mem _ hp)
    unfold buildHits
    by_cases hg : idx ≠ -1 ∧ idx < (md.length : Int)
    · rw [if_pos hg]
      have hidx : 0 ≤ idx ∧ idx < (md.length : Int) := by
        rcases hres (dist, idx) (List.mem_cons_self _ _) with h | h
        · exact ⟨h, hg.2⟩
        · exact absurd h hg.1
      obtain ⟨item, hget, -⟩ := pyGetList_in_range md idx hidx.1 hidx.2
      rw [hget]
      dsimp only
      cases h2 : dictGet item "filename" with
      | error e =>
        dsimp only
        have he : e = .keyError := by
          unfold dictGet at h2
          cases h : dictGetOpt item "filename" <;> rw [h] at h2 <;> simp_all
        simp [he]
      | ok fn =>
        dsimp only
        cases h3 : dictGet item "text" with
        | error e =>
          dsimp only
          have he : e = .keyError := by
            unfold dictGet at h3
            cases h : dictGetOpt item "text" <;> rw [h] at h3 <;> simp_all
          simp [he]
        | ok tv =>
          cases tv with
          | int n => simp
          | str txt =>
            dsimp only
            cases h4 : buildHits md rest with
            | error e =>
              have hne := ih hrest
              rw [h4] at hne
              simp only [Except.map]
              intro hcontra
              injection hcontra with hcontra
              exact hne (by rw [hcontra])
            | ok hits =>
              simp [Except.map]
    · rw [if_neg hg]
      exact ih hrest

/-- Helper: the result list is never longer than the slot list. -/
theorem buildHits_len_le (md : List PyDict) (res : List (ℚ × Int)) :
    resultLen (buildHits md res) ≤ res.length := by
  induction res with
  | nil => simp [buildHits, resultLen]
  | cons p rest ih =>
    obtain ⟨dist, idx⟩ := p
    unfold buildHits
    by_cases hg : idx ≠ -1 ∧ idx < (md.length : Int)
    · rw [if_pos hg]
      cases h1 : pyGetList md idx with
      | error e => simp [resultLen]
      | ok item =>
        dsimp only
        cases h2 : dictGet item "filename" with
        | error e => simp [resultLen]
        | ok fn =>
          dsimp only
          cases h3 : dictGet item "text" with
          | error e => simp [resultLen]
          | ok tv =>
            cases tv with
            | int n => simp [resultLen]
            | str txt =>
              dsimp only
              cases h4 : buildHits md rest with
              | error e =>
                simp [resultLen, Except.map]
              | ok hits =>
                rw [h4] at ih
                simp only [Except.map, resultLen, List.length_cons] at ih ⊢
                omega
    · rw [if_neg hg]
      have : ((dist, idx) :: rest).length = rest.length + 1 := by simp
      omega

/-- C9: `search` never accesses the metadata list out of bounds — the
`idx != -1 and idx < len(self.metadata)` guard drops the FAISS `-1`
sentinel and any index beyond the metadata length, so no `IndexError`
is ever raised, at most `top_k` hits are returned, and on a store
whose vector count (2) exceeds its metadata length (1) the search
silently returns the single resolvable hit rather than raising. -/
theorem search_never_out_of_bounds (s : VectorStore) (q : List ℚ) (k : Nat) :
    s.search q k ≠ .error .indexError ∧
    resultLen (s.search q k) ≤ k ∧
    zmisStore.search [] 2 = .ok [⟨.str ['f'], ['t', 'x', '.', '.', '.'], 0⟩] := by
  refine ⟨?_, ?_, rfl⟩
  · unfold VectorStore.search
    cases s.index with
    | none => simp
    | some ix =>
      dsimp only
      by_cases h0 : ix.vecs.length = 0
      · rw [if_pos h0]
        simp
      · rw [if_neg h0]
        by_cases hq : q.length ≠ ix.d
        · rw [if_pos hq]
          simp
        · rw [if_neg hq]
          by_cases hk : k = 0
          · rw [if_pos hk]
            simp
          · rw [if_neg hk]
            exact buildHits_no_idx_error s.metadata (faissSearch ix.vecs q k)
              (fun p hp =>
                (faissSearch_idx ix.vecs q k p hp).imp (fun h => h.1) id)
  · unfold VectorStore.search
    cases s.index with
    | none => simp [resultLen]
    | some ix =>
      dsimp only
      by_cases h0 : ix.vecs.length = 0
      · rw [if_pos h0]
        simp [resultLen]
      · rw [if_neg h0]
        by_cases hq : q.length ≠ ix.d
        · rw [if_pos hq]
          simp [resultLen]
        · rw [if_neg hq]
          by_cases hk : k = 0
          · rw [if_pos hk]
            simp [resultLen]
          · rw [if_neg hk]
            have h1 := buildHits_len_le s.metadata (faissSearch ix.vecs q k)
            rw [faissSearch_length] at h1
            exact h1

/-- Helper: the result loop succeeds on well-formed metadata and
returns one hit per non-sentinel in-range index. -/
theorem buildHits_count (md : List PyDict) (res : List (ℚ × Int))
    (hwf : wfMeta md = true)
    (hres : ∀ p ∈ res, (0 ≤ p.2 ∧ p.2 < (md.length : Int)) ∨ p.2 = -1) :
    (buildHits md res).map List.length = .ok (res.countP (fun p => decide (p.2 ≠ -1))) := by
  induction res with
  | nil => simp [buildHits, Except.map]
  | cons p rest ih =>
    obtain ⟨dist, idx⟩ := p
    have hrest : ∀ p ∈ rest, (0 ≤ p.2 ∧ p.2 < (md.length : Int)) ∨ p.2 = -1 :=
      fun p hp => hres p (List.mem_cons_of_mem _ hp)
    have hih := ih hrest
    rcases hres (dist, idx) (List.mem_cons_self _ _) with ⟨h0, hlt⟩ | hm1
    · have hne : idx ≠ -1 := by omega
      unfold buildHits
      rw [if_pos ⟨hne, hlt⟩]
      obtain ⟨item, hget, hsome⟩ := pyGetList_in_range md idx h0 hlt
      rw [hget]
      dsimp only
      have hmem : item ∈ md := List.get?_mem hsome
      have hitem : wfEntry item = true := (List.all_eq_true.mp hwf) item hmem
      unfold wfEntry at hitem
      rw [Bool.and_eq_true] at hitem
      obtain ⟨hfn, htx⟩ := hitem
      obtain ⟨fnv, hfnv⟩ := Option.isSome_iff_exists.mp hfn
      have hfget : dictGet item "filename" = .ok fnv := by
        unfold dictGet
        rw [hfnv]
      rw [hfget]
      dsimp only
      cases htv : dictGetOpt item "text" with
      | none => rw [htv] at htx; simp at htx
      | some tv =>
        cases tv with
        | int n => rw [htv] at htx; simp at htx
        | str txt =>
          have htget : dictGet item "text" = .ok (.str txt) := by
            unfold dictGet
            rw [htv]
          rw [htget]
          dsimp only
          cases hb : buildHits md rest with
          | error e =>
            rw [hb] at hih
            simp [Except.map] at hih
          | ok hits =>
            rw [hb] at hih
            simp only [Except.map] at hih ⊢
            injection hih with hih
            rw [List.countP_cons_of_pos _ _ (by simpa using hne)]
            simp [hih]
    · have hm1' : idx = -1 := hm1
      have hng : ¬ (idx ≠ -1 ∧ idx < (md.length : Int)) := by simp [hm1']
      unfold buildHits
      rw [if_neg hng]
      rw [List.countP_cons_of_neg _ _ (by simp [hm1'])]
      exact hih

/-- Helper: every scored entry carries a nonnegative index. -/
theorem mem_scored_nonneg (vecs : List (List ℚ)) (q : List ℚ) :
    ∀ p ∈ vecs.enum.map (fun pr => (sqDist q pr.2, (pr.1 : Int))), 0 ≤ p.2 := by
  intro p hp
  rw [List.mem_map] at hp
  obtain ⟨⟨i, v⟩, hmem, rfl⟩ := hp
  exact Int.ofNat_nonneg i

/-- Helper: FAISS reports exactly `min k n` real (non-sentinel)
results on a store of `n` vectors. -/
theorem faissSearch_countP (vecs : List (List ℚ)) (q : List ℚ) (k : Nat) :
    (faissSearch vecs q k).countP (fun p => decide (p.2 ≠ -1)) = min k vecs.length := by
  unfold faissSearch
  dsimp only
  rw [List.countP_append]
  have htop : (List.take k (sortStable (fun (a b : ℚ × Int) => decide (a.1 ≤ b.1))
        (vecs.enum.map (fun p => (sqDist q p.2, (p.1 : Int)))))).countP
      (fun p => decide (p.2 ≠ -1))
      = (List.take k (sortStable (fun (a b : ℚ × Int) => decide (a.1 ≤ b.1))
        (vecs.enum.map (fun p => (sqDist q p.2, (p.1 : Int)))))).length := by
    rw [List.countP_eq_length]
    intro p hp
    have h0 := mem_scored_nonneg vecs q p
      ((sortStable_perm _ _).mem_iff.mp (List.mem_of_mem_take hp))
    simp only [decide_eq_true_eq]
    omega
  have hpad : (List.replicate (k - (List.take k (sortStable
        (fun (a b : ℚ × Int) => decide (a.1 ≤ b.1))
        (vecs.enum.map (fun p => (sqDist q p.2, (p.1 : Int)))))).length)
        ((faissPadDist, -1) : ℚ × Int)).countP (fun p => decide (p.2 ≠ -1)) = 0 := by
    rw [List.countP_eq_zero]
    intro a ha
    rw [List.eq_of_mem_replicate ha]
    simp
  rw [htop, hpad, List.length_take, (sortStable_perm _ _).length_eq,
    List.length_map, List.enum_length, Nat.add_zero]

/-- C7: on a store of `n` vectors with parallel well-formed metadata,
a query of the configured dimension with `top_k ≥ 1` returns exactly
`min(top_k, n)` hits: the empty store yields `[]` rather than an
error, and `top_k > n` yields exactly `n` hits without padding. -/
theorem search_hit_count (s : VectorStore) (ix : FaissIndex) (q : List ℚ) (k : Nat)
    (hix : s.index = some ix) (hmd : s.metadata.length = ix.vecs.length)
    (hq : q.length = ix.d) (hk : 1 ≤ k) (hwf : wfMeta s.metadata = true) :
    (s.search q k).map List.length = .ok (min k ix.vecs.length) := by
  unfold VectorStore.search
  rw [hix]
  dsimp only
  by_cases h0 : ix.vecs.length = 0
  · rw [if_pos h0]
    simp [h0, Except.map]
  · rw [if_neg h0, if_neg (by simp [hq]), if_neg (by omega)]
    rw [buildHits_count s.metadata _ hwf (fun p hp => by
      rw [hmd]
      exact faissSearch_idx ix.vecs q k p hp)]
    rw [faissSearch_countP]

/-- Witness for `search_hit_count`: the two-vector store `wfStore`
queried with `[7]` and `top_k = 5` returns `min 5 2 = 2` hits. -/
theorem search_hit_count_witness :
    (wfStore.search [(7 : ℚ)] 5).map List.length = .ok (min 5 2) :=
  search_hit_count wfStore ⟨1, [[(0 : ℚ)], [(10 : ℚ)]]⟩ [(7 : ℚ)] 5 rfl rfl rfl
    (by omega) (by decide)

/-- Helper: appending one record extends the positional id check. -/
theorem idsOkFrom_append (b : Nat) (l : List PyDict) (d : PyDict) :
    idsOkFrom b (l ++ [d]) =
      (idsOkFrom b l && (dictGetOpt d "id" == some (.int ((b + l.length : Nat) : Int)))) := by
  induction l generalizing b with
  | nil => simp [idsOkFrom]
  | cons e l ih =>
    rw [List.cons_append]
    simp only [idsOkFrom]
    rw [ih (b + 1)]
    have harith : b + 1 + l.length = b + (e :: l).length := by
      simp
      omega
    rw [harith, Bool.and_assoc]

/-- Helper: one successful `add_item` keeps the index defined, the
counts in sync, and the positional id invariant. -/
theorem add_item_inv (s : VectorStore) (v : List ℚ) (meta : PyDict)
    (s' : VectorStore) (meta' : PyDict) (ix : FaissIndex)
    (hix : s.index = some ix) (hcnt : s.metadata.length = ix.vecs.length)
    (hids : idsOk s.metadata = true)
    (h : add_item s v meta = .ok (s', meta')) :
    ∃ ix', s'.index = some ix' ∧ s'.metadata.length = ix'.vecs.length ∧
      idsOk s'.metadata = true := by
  unfold add_item at h
  rw [hix] at h
  obtain ⟨hv, hm, hs⟩ := addCore_ok _ _ _ _ _ _ _ h
  subst hm
  subst hs
  refine ⟨⟨ix.d, ix.vecs ++ [v]⟩, rfl, by simp [hcnt], ?_⟩
  show idsOkFrom 0 _ = true
  rw [idsOkFrom_append]
  have h1 : idsOkFrom 0 s.metadata = true := hids
  rw [h1, dictGetOpt_dictSet_self]
  simp [hcnt]

/-- Helper: a successful batch of `add_item` calls preserves the
invariant from any in-sync starting state. -/
theorem addAll_inv (items : List (List ℚ × PyDict)) :
    ∀ (s s' : VectorStore) (ix : FaissIndex), s.index = some ix →
      s.metadata.length = ix.vecs.length → idsOk s.metadata = true →
      addAll s items = .ok s' →
      (∃ ix', s'.index = some ix' ∧ s'.metadata.length = ix'.vecs.length) ∧
        idsOk s'.metadata = true := by
  induction items with
  | nil =>
    intro s s' ix hix hcnt hids h
    unfold addAll at h
    injection h with h
    subst h
    exact ⟨⟨ix, hix, hcnt⟩, hids⟩
  | cons it rest ih =>
    intro s s' ix hix hcnt hids h
    obtain ⟨v, m⟩ := it
    unfold addAll at h
    cases hadd : add_item s v m with
    | error e =>
      rw [hadd] at h
      exact absurd h (by simp)
    | ok pr =>
      obtain ⟨s1, m1⟩ := pr
      rw [hadd] at h
      obtain ⟨ix1, hix1, hcnt1, hids1⟩ := add_item_inv s v m s1 m1 ix hix hcnt hids hadd
      exact ih s1 s' ix1 hix1 hcnt1 hids1 h

/-- C4: starting from a freshly constructed empty store, any number of
sequential `add_item` calls leaves `metadata[i]["id"] = i` for every
position `i`, and the invariant still holds in the store obtained by
saving and constructing a fresh instance from the same artifacts. -/
theorem add_ids_invariant (dim dim' : Nat) (disk : DiskState)
    (items : List (List ℚ × PyDict)) (s' : VectorStore)
    (h : addAll (emptyStore dim) items = .ok s') :
    idsOk s'.metadata = true ∧
    (load_index dim' (save_index s' disk)).map (fun t => idsOk t.metadata)
      = .ok true := by
  obtain ⟨⟨ix', hix', hcnt'⟩, hids'⟩ :=
    addAll_inv items (emptyStore dim) s' ⟨dim, []⟩ rfl rfl rfl h
  refine ⟨hids', ?_⟩
  unfold save_index
  rw [hix']
  simp [load_index, DiskFile.present, DiskFile.read, Except.map, hids']

/-- Witness for `add_ids_invariant`: two adds on a fresh 1-dimensional
store, the second with a pre-populated caller dict. -/
theorem add_ids_invariant_witness :
    idsOk (VectorStore.mk 1 (some ⟨1, [[(0 : ℚ)], [(1 : ℚ)]]⟩)
        [[("id", PyVal.int 0)],
         [("filename", PyVal.str ['x']), ("id", PyVal.int 1)]]).metadata = true ∧
    (load_index 7 (save_index (VectorStore.mk 1 (some ⟨1, [[(0 : ℚ)], [(1 : ℚ)]]⟩)
        [[("id", PyVal.int 0)],
         [("filename", PyVal.str ['x']), ("id", PyVal.int 1)]]) ⟨.absent, .absent⟩)).map
      (fun t => idsOk t.metadata) = .ok true :=
  add_ids_invariant 1 7 ⟨.absent, .absent⟩
    [([(0 : ℚ)], []), ([(1 : ℚ)], [("filename", PyVal.str ['x'])])]
    (VectorStore.mk 1 (some ⟨1, [[(0 : ℚ)], [(1 : ℚ)]]⟩)
        [[("id", PyVal.int 0)],
         [("filename", PyVal.str ['x']), ("id", PyVal.int 1)]])
    (by rfl)
